import Mathlib

/-!
# Verification of `poppy/accel_math.py`

A shallow embedding of the FFT dispatch module `poppy/accel_math.py`:
backend capability/configuration flags, the `ispowerof2` size check, the
FFT-shift engine (numpy reference reindexing and the CUDA quadrant-swap
kernel `cufftShift_2D_kernel`), the FFTW plan-calibration cache
`_FFTW_INIT`, and the dispatcher `fft_2d`.

Modelling conventions:
* 2D numpy arrays become `NDArray α`: a shape pair, a dtype tag and a total
  `Nat → Nat → α` contents function (in-place mutation becomes returning the
  updated array).
* The actual backend transforms (pyculib / gpyfft / pyfftw / numpy FFT calls)
  are external libraries; `fft_2d` is parametrised by a `BackendImpls` record
  of opaque transform functions, exactly as the module only orchestrates them.
  The pyfftw call may raise, so it returns `Except String _`.
* Scalars and normalization factors are modelled exactly (field arithmetic on
  `ℚ`); Python would raise `ZeroDivisionError` at `1./wavefront.shape[0]` for
  an empty leading dimension, while field division gives `1/0 = 0` — claims
  about normalization values are equalities that hold in either reading.
* The destructive FFTW calibration pass (lines 236-250) is observable through
  an explicit list of `CalibEvent`s emitted per call, recording the key, the
  throwaway buffer and the `planner_effort`/`threads` arguments it was run
  with, and through the returned `_FFTW_INIT` cache state.
-/

namespace Poppy

/-- numpy dtype tags occurring in the module. -/
inductive Dtype
  | float32
  | float64
  | complex64
  | complex128
deriving DecidableEq

/-- User configuration flags (`poppy.conf`). -/
structure Conf where
  use_cuda : Bool
  use_opencl : Bool
  use_fftw : Bool
  use_numexpr : Bool
  double_precision : Bool
deriving DecidableEq

/-- Process-wide library availability flags set once by the import probes
(`_CUDA_AVAILABLE`, `_OPENCL_AVAILABLE`, `_FFTW_AVAILABLE`, lines 14-53). -/
structure Caps where
  cuda : Bool
  opencl : Bool
  fftw : Bool
deriving DecidableEq

/-- `_float()` (lines 62-65): numpy float dtype for the configured precision. -/
def _float (conf : Conf) : Dtype :=
  if conf.double_precision then Dtype.float64 else Dtype.float32

/-- `_complex()` (lines 68-71). -/
def _complex (conf : Conf) : Dtype :=
  if conf.double_precision then Dtype.complex128 else Dtype.complex64

/-- `ispowerof2(num)` (lines 269-272): `num & (num-1) == 0`. -/
def ispowerof2 (num : Nat) : Bool := num &&& (num - 1) == 0

/-- A 2D numpy array: shape `(shape0, shape1)`, dtype tag, and contents as a
total row-major function of the two indices. -/
structure NDArray (α : Type) where
  shape0 : Nat
  shape1 : Nat
  dtype : Dtype
  data : Nat → Nat → α

/-- `x.ravel()` for a row-major array with row length `N`. -/
def ravel (N : Nat) (f : Nat → Nat → α) : Nat → α := fun k => f (k / N) (k % N)

/-- Reading a flat row-major buffer of row length `N` back as a 2D array. -/
def unravel (N : Nat) (d : Nat → α) : Nat → Nat → α := fun i j => d (i * N + j)

/-- `wavefront *= normalization` (line 263). -/
def scale (c : ℚ) (a : NDArray ℚ) : NDArray ℚ :=
  { a with data := fun i j => c * a.data i j }

/-- `np.zeros(wavefront.shape)` (line 246). No `dtype` argument is passed, so
numpy's default dtype `float64` is used, independent of `conf.double_precision`. -/
def np_zeros (m n : Nat) : NDArray ℚ := ⟨m, n, Dtype.float64, fun _ _ => 0⟩

/-- `np.fft.fftshift` on a 2D array of shape `(m, n)`: circular roll of each
axis by `dim // 2`, so entry `(i, j)` of the result is entry
`((i - m/2) mod m, (j - n/2) mod n)` of the input. -/
def np_fftshift (m n : Nat) (f : Nat → Nat → α) : Nat → Nat → α :=
  fun i j => f ((i + (m - m / 2)) % m) ((j + (n - n / 2)) % n)

/-- `np.fft.ifftshift` on a 2D array of shape `(m, n)`: circular roll of each
axis by `-(dim // 2)`. -/
def np_ifftshift (m n : Nat) (f : Nat → Nat → α) : Nat → Nat → α :=
  fun i j => f ((i + m / 2) % m) ((j + n / 2) % n)

/-- `cufftShift_2D_kernel(data, N)` (lines 302-333), the quadrant-swap kernel
run on the flattened array. In the launch configuration of
`_fftshift`/`_ifftshift` (`numBlocks = (N/32, N/32)`, `blockdim = (32, 32)`)
the threads `(x, y) = cuda.grid(2)` cover exactly `[0,N) × [0,N)` (the callers
guarantee `32 ∣ N`). A thread with `x < N/2 ∧ y < N/2` swaps
`data[index] ↔ data[index + sEq1]`; a thread with `x ≥ N/2 ∧ y < N/2` swaps
`data[index] ↔ data[index + sEq2]`; threads with `y ≥ N/2` write nothing.
Distinct threads touch disjoint index pairs, so the parallel execution is the
pointwise function below: the first two branches are the two writes a thread
makes to its own `index`, and the two subtraction branches are the writes the
swapping thread `(x ∓ N/2, y - N/2)` makes into the opposite quadrant. -/
def cufftShift_2D_kernel (N : Nat) (data : Nat → α) : Nat → α := fun index =>
  let sLine := N
  let sSlice := N * N
  let sEq1 := (sSlice + sLine) / 2
  let sEq2 := (sSlice - sLine) / 2
  let x := index % N
  let y := index / N
  if y < N / 2 then
    if x < N / 2 then data (index + sEq1)
    else data (index + sEq2)
  else if y < N then
    if x < N / 2 then data (index - sEq2)
    else data (index - sEq1)
  else data index

/-- The shared CUDA fast path of `_fftshift`/`_ifftshift` (lines 108-111 and
133-136): run `cufftShift_2D_kernel` on `x.ravel()` in place and return `x`. -/
def gpuShift (x : NDArray α) : NDArray α :=
  { x with data := unravel x.shape0 (cufftShift_2D_kernel x.shape0 (ravel x.shape0 x.data)) }

/-- `_fftshift(x)` (lines 94-113). `useCuda` models the module-level
`_USE_CUDA` flag. -/
def _fftshift (useCuda : Bool) (x : NDArray α) : NDArray α :=
  let N := x.shape0
  if useCuda && (N == x.shape1) && (N &&& 31 == 0) then gpuShift x
  else { x with data := np_fftshift x.shape0 x.shape1 x.data }

/-- `_ifftshift(x)` (lines 115-138). -/
def _ifftshift (useCuda : Bool) (x : NDArray α) : NDArray α :=
  let N := x.shape0
  if useCuda && (N == x.shape1) && (N &&& 31 == 0) then gpuShift x
  else { x with data := np_ifftshift x.shape0 x.shape1 x.data }

/-- The four execution paths of `fft_2d`. -/
inductive Backend
  | cuda
  | opencl
  | fftw
  | numpy
deriving DecidableEq

/-- The backend selected by `fft_2d` (lines 171-191 and the dispatch chain at
lines 197-258): per-call effective flags `conf.use_x && caps.x`, the OpenCL
power-of-two demotion of line 178-181, then the fixed priority if/elif chain
CUDA, OpenCL, FFTW, numpy. -/
def selectBackend (conf : Conf) (caps : Caps) (shape0 : Nat) : Backend :=
  let _USE_CUDA := conf.use_cuda && caps.cuda
  let _USE_OPENCL := (conf.use_opencl && caps.opencl) && ispowerof2 shape0
  let _USE_FFTW := conf.use_fftw && caps.fftw
  if _USE_CUDA then Backend.cuda
  else if _USE_OPENCL then Backend.opencl
  else if _USE_FFTW then Backend.fftw
  else Backend.numpy

/-- The per-branch default normalization of `fft_2d` when the caller passes
`normalization=None`: `1./wavefront.shape[0]` regardless of direction for CUDA
(line 199), `1./wavefront.shape[0]` forward and `wavefront.shape[0]` backward
for OpenCL, FFTW and numpy (lines 219, 233, 257). -/
def defaultNorm (backend : Backend) (forward : Bool) (shape0 : Nat) : ℚ :=
  match backend with
  | Backend.cuda => 1 / (shape0 : ℚ)
  | _ => if forward then 1 / (shape0 : ℚ) else (shape0 : ℚ)

/-- A key of the `_FFTW_INIT` plan cache: (array shape, FFT direction), the
direction recorded as the boolean `forward`. -/
abbrev PlanKey := (Nat × Nat) × Bool

/-- The `_FFTW_INIT` cache (line 18): the set of keys already calibrated. -/
abbrev FFTWInit := List PlanKey

/-- One run of the destructive FFTW calibration pass (lines 246-248), with the
throwaway buffer and the `planner_effort`/`threads` arguments it received. -/
structure CalibEvent where
  key : PlanKey
  buffer : NDArray ℚ
  planner_effort : String
  threads : Nat

/-- The external transform libraries that `fft_2d` orchestrates. The pyfftw
interface call receives the `planner_effort` and `threads` arguments and may
raise. (The pyculib plan creation/reuse of lines 204-209 is a memoisation of a
deterministic plan object with no observable effect in a functional model, so
the CUDA transform is a single function here.) -/
structure BackendImpls where
  cuda_fft : Bool → NDArray ℚ → NDArray ℚ
  opencl_fft : Bool → NDArray ℚ → NDArray ℚ
  fftw_fft : Bool → NDArray ℚ → String → Nat → Except String (NDArray ℚ)
  numpy_fft : Bool → NDArray ℚ → NDArray ℚ

/-- `Except.isOk`, to state success of a pyfftw call. -/
def exceptIsOk : Except ε α → Bool
  | Except.ok _ => true
  | Except.error _ => false

/-- The FFTW branch of `fft_2d` (lines 229-253): if `(shape, direction)` is
not yet in `_FFTW_INIT`, run the destructive calibration transform on a fresh
`np.zeros(wavefront.shape)` buffer with `planner_effort=FFTW_MEASURE` and
`threads=multiprocessing.cpu_count()`, then mark the key; in every case run
the real transform on the caller's buffer with the same settings. A raised
calibration error propagates before the key is marked. Returns
(result-or-error, new `_FFTW_INIT`, calibration events of this call). -/
def fftwBranch (impl : BackendImpls) (ncpus : Nat) (forward : Bool)
    (wavefront : NDArray ℚ) (st : FFTWInit) :
    Except String (NDArray ℚ) × FFTWInit × List CalibEvent :=
  let key : PlanKey := ((wavefront.shape0, wavefront.shape1), forward)
  if key ∈ st then
    (impl.fftw_fft forward wavefront "FFTW_MEASURE" ncpus, st, [])
  else
    let test_array := np_zeros wavefront.shape0 wavefront.shape1
    let ev : CalibEvent := ⟨key, test_array, "FFTW_MEASURE", ncpus⟩
    match impl.fftw_fft forward test_array "FFTW_MEASURE" ncpus with
    | Except.error e => (Except.error e, st, [ev])
    | Except.ok _ =>
        (impl.fftw_fft forward wavefront "FFTW_MEASURE" ncpus, key :: st, [ev])

/-- `fft_2d(wavefront, forward, normalization, fftshift)` (lines 143-265).
Per-call effective flags and OpenCL size demotion, inverse shift before a
backward FFT, dispatch to the single selected backend, forward shift after a
forward FFT, and a final in-place multiplication by the resolved
normalization scalar. `ncpus` models `multiprocessing.cpu_count()`; `st` is
the `_FFTW_INIT` cache threaded through the call. -/
def fft_2d (impl : BackendImpls) (conf : Conf) (caps : Caps) (ncpus : Nat)
    (st : FFTWInit) (wavefront : NDArray ℚ) (forward : Bool)
    (normalization : Option ℚ) (fftshift : Bool) :
    Except String (NDArray ℚ) × FFTWInit × List CalibEvent :=
  let _USE_CUDA := conf.use_cuda && caps.cuda
  let backend := selectBackend conf caps wavefront.shape0
  let wf1 := if (!forward) && fftshift then _ifftshift _USE_CUDA wavefront else wavefront
  let norm : ℚ :=
    match normalization with
    | some v => v
    | none => defaultNorm backend forward wf1.shape0
  let dispatched :=
    match backend with
    | Backend.cuda => (Except.ok (impl.cuda_fft forward wf1), st, ([] : List CalibEvent))
    | Backend.opencl => (Except.ok (impl.opencl_fft forward wf1), st, [])
    | Backend.fftw => fftwBranch impl ncpus forward wf1 st
    | Backend.numpy => (Except.ok (impl.numpy_fft forward wf1), st, [])
  match dispatched with
  | (Except.error e, st1, evs) => (Except.error e, st1, evs)
  | (Except.ok wf2, st1, evs) =>
      let wf3 := if forward && fftshift then _fftshift _USE_CUDA wf2 else wf2
      (Except.ok (scale norm wf3), st1, evs)

/-- One queued call to `fft_2d` (configuration may change between calls). -/
structure Request where
  conf : Conf
  wf : NDArray ℚ
  forward : Bool
  norm : Option ℚ
  fftshift : Bool

/-- Run a sequence of `fft_2d` calls threading the `_FFTW_INIT` cache,
collecting every calibration event. -/
def runCalls (impl : BackendImpls) (caps : Caps) (ncpus : Nat) :
    List Request → FFTWInit → FFTWInit × List CalibEvent
  | [], st => (st, [])
  | r :: rs, st =>
      let out := fft_2d impl r.conf caps ncpus st r.wf r.forward r.norm r.fftshift
      let rest := runCalls impl caps ncpus rs out.2.1
      (rest.1, out.2.2 ++ rest.2)

/-- Number of calibration passes recorded for a given plan-cache key. -/
def countCalib (k : PlanKey) (evs : List CalibEvent) : Nat :=
  (evs.filter (fun e => e.key = k)).length

/-! ## Arithmetic helpers for the flattened-index computations -/

lemma flat_mod (N i j : Nat) (hj : j < N) : (i * N + j) % N = j := by
  rw [Nat.mul_comm, Nat.mul_add_mod, Nat.mod_eq_of_lt hj]

lemma flat_div (N i j : Nat) (hj : j < N) : (i * N + j) / N = i := by
  have hN : 0 < N := Nat.lt_of_le_of_lt (Nat.zero_le j) hj
  rw [Nat.add_comm, Nat.add_mul_div_right _ _ hN, Nat.div_eq_of_lt hj, Nat.zero_add]

lemma h_le_two_sq (h : Nat) : h ≤ 2 * (h * h) := by
  cases h with
  | zero => exact Nat.le_refl 0
  | succ n =>
      calc n + 1 ≤ (n + 1) * (n + 1) := Nat.le_mul_of_pos_left _ (Nat.succ_pos n)
      _ ≤ 2 * ((n + 1) * (n + 1)) := Nat.le_mul_of_pos_left _ (by omega)

/-- `sEq1 = (N² + N) / 2` evaluated at an even side length `N = 2h`. -/
lemma sEq1_eval (h : Nat) : (2 * h * (2 * h) + 2 * h) / 2 = 2 * (h * h) + h := by
  have e : 2 * h * (2 * h) + 2 * h = (2 * (h * h) + h) * 2 := by ring
  rw [e, Nat.mul_div_cancel _ (by omega)]

/-- `sEq2 = (N² - N) / 2` evaluated at an even side length `N = 2h`. -/
lemma sEq2_eval (h : Nat) : (2 * h * (2 * h) - 2 * h) / 2 = 2 * (h * h) - h := by
  have e : 2 * h * (2 * h) - 2 * h = (2 * (h * h) - h) * 2 := by
    rw [Nat.sub_mul]
    have e1 : 2 * (h * h) * 2 = 2 * h * (2 * h) := by ring
    have e2 : h * 2 = 2 * h := by ring
    rw [e1, e2]
  rw [e, Nat.mul_div_cancel _ (by omega)]

/-- Closed form of the quadrant-swap kernel on an even side length `N = 2h`:
at every in-range position it is the circular shift of both axes by `h`. -/
lemma cufftShift_closed_form (h : Nat) (data : Nat → α) (i j : Nat)
    (hi : i < 2 * h) (hj : j < 2 * h) :
    cufftShift_2D_kernel (2 * h) data (i * (2 * h) + j) =
      data (((i + h) % (2 * h)) * (2 * h) + ((j + h) % (2 * h))) := by
  have hh : 0 < h := by omega
  have hN2 : 2 * h / 2 = h := by omega
  have hsq := h_le_two_sq h
  simp only [cufftShift_2D_kernel]
  rw [flat_mod (2 * h) i j hj, flat_div (2 * h) i j hj, hN2, sEq1_eval, sEq2_eval]
  by_cases hi1 : i < h
  · have hmi : (i + h) % (2 * h) = i + h := Nat.mod_eq_of_lt (by omega)
    rw [if_pos hi1, hmi]
    by_cases hj1 : j < h
    · have hmj : (j + h) % (2 * h) = j + h := Nat.mod_eq_of_lt (by omega)
      rw [if_pos hj1, hmj]
      congr 1
      ring
    · have hmj : (j + h) % (2 * h) = j - h := by
        rw [Nat.mod_eq_sub_mod (by omega), Nat.mod_eq_of_lt (by omega)]
        omega
      rw [if_neg hj1, hmj]
      congr 1
      have e1 : (i + h) * (2 * h) = i * (2 * h) + 2 * (h * h) := by ring
      rw [e1]
      omega
  · have hi2 : ¬ i + h < 2 * h := by omega
    have hmi : (i + h) % (2 * h) = i - h := by
      rw [Nat.mod_eq_sub_mod (by omega), Nat.mod_eq_of_lt (by omega)]
      omega
    have hA : h * (2 * h) ≤ i * (2 * h) :=
      Nat.mul_le_mul_right _ (by omega)
    have eA : h * (2 * h) = 2 * (h * h) := by ring
    rw [eA] at hA
    have eS : (i - h) * (2 * h) = i * (2 * h) - 2 * (h * h) := by
      rw [Nat.sub_mul, eA]
    rw [if_neg hi1, if_pos hi, hmi]
    by_cases hj1 : j < h
    · have hmj : (j + h) % (2 * h) = j + h := Nat.mod_eq_of_lt (by omega)
      rw [if_pos hj1, hmj]
      congr 1
      rw [eS]
      omega
    · have hmj : (j + h) % (2 * h) = j - h := by
        rw [Nat.mod_eq_sub_mod (by omega), Nat.mod_eq_of_lt (by omega)]
        omega
      rw [if_neg hj1, hmj]
      congr 1
      rw [eS]
      omega

/-- The bit trick of lines 105-107: `(N & 31) == 0` tests `N % 32 == 0`. -/
lemma and31_eq_mod32 (n : Nat) : n &&& 31 = n % 32 := by
  have e := Nat.and_pow_two_sub_one_eq_mod n 5
  norm_num at e
  exact e

lemma gpuShift_shape0 (x : NDArray α) : (gpuShift x).shape0 = x.shape0 := rfl

lemma gpuShift_shape1 (x : NDArray α) : (gpuShift x).shape1 = x.shape1 := rfl

/-- The kernel run over the flattened array, read back as a 2D array, is the
circular shift of both axes by `h` on an even side length `2h`. -/
lemma kernel_grid_eval (h : Nat) (f : Nat → Nat → α) (i j : Nat)
    (hi : i < 2 * h) (hj : j < 2 * h) :
    unravel (2 * h) (cufftShift_2D_kernel (2 * h) (ravel (2 * h) f)) i j =
      f ((i + h) % (2 * h)) ((j + h) % (2 * h)) := by
  have hh : 0 < 2 * h := by omega
  calc unravel (2 * h) (cufftShift_2D_kernel (2 * h) (ravel (2 * h) f)) i j
      = cufftShift_2D_kernel (2 * h) (ravel (2 * h) f) (i * (2 * h) + j) := rfl
    _ = ravel (2 * h) f (((i + h) % (2 * h)) * (2 * h) + ((j + h) % (2 * h))) :=
        cufftShift_closed_form h (ravel (2 * h) f) i j hi hj
    _ = f ((i + h) % (2 * h)) ((j + h) % (2 * h)) := by
        simp only [ravel]
        rw [flat_div (2 * h) _ _ (Nat.mod_lt _ hh), flat_mod (2 * h) _ _ (Nat.mod_lt _ hh)]

/-- Pointwise description of the CUDA fast-path shift at even side `2h`. -/
lemma gpuShift_data (x : NDArray α) (h : Nat) (hN : x.shape0 = 2 * h)
    (i j : Nat) (hi : i < x.shape0) (hj : j < x.shape0) :
    (gpuShift x).data i j = x.data ((i + h) % x.shape0) ((j + h) % x.shape0) := by
  obtain ⟨m, n, dt, f⟩ := x
  simp only at hN hi hj
  subst hN
  exact kernel_grid_eval h f i j hi hj

/-- numpy `ifftshift` after `fftshift` restores every in-range entry. -/
lemma np_shift_roundtrip (m n : Nat) (f : Nat → Nat → α) (i j : Nat)
    (hi : i < m) (hj : j < n) :
    np_ifftshift m n (np_fftshift m n f) i j = f i j := by
  simp only [np_ifftshift, np_fftshift]
  have em : m / 2 + (m - m / 2) = m := by omega
  have en : n / 2 + (n - n / 2) = n := by omega
  congr 1
  · rw [Nat.mod_add_mod, Nat.add_assoc, em, Nat.add_mod_right, Nat.mod_eq_of_lt hi]
  · rw [Nat.mod_add_mod, Nat.add_assoc, en, Nat.add_mod_right, Nat.mod_eq_of_lt hj]

/-- Decomposition of the fast-path test of `_fftshift`/`_ifftshift`. -/
lemma fastPathCond_iff (u : Bool) (x : NDArray α) :
    (u && (x.shape0 == x.shape1) && (x.shape0 &&& 31 == 0)) = true ↔
      u = true ∧ x.shape0 = x.shape1 ∧ x.shape0 % 32 = 0 := by
  rw [Bool.and_eq_true, Bool.and_eq_true, beq_iff_eq, beq_iff_eq, and31_eq_mod32]
  tauto

/-! ## Claim C4: exact shift round trip on both paths -/

/-- **C4**: for every 2D array whose side lengths are even,
`_ifftshift (_fftshift A) = A` exactly at every in-range entry — a pure
integer reindexing over an arbitrary element type, with no floating-point
error — whichever of the CUDA fast path or the numpy reference path is taken
(`u` is the `_USE_CUDA` flag; both paths occur for suitable shapes). -/
theorem shift_roundtrip_exact (u : Bool) (x : NDArray α)
    (_he0 : x.shape0 % 2 = 0) (_he1 : x.shape1 % 2 = 0)
    (i j : Nat) (hi : i < x.shape0) (hj : j < x.shape1) :
    (_ifftshift u (_fftshift u x)).data i j = x.data i j := by
  by_cases hc : (u && (x.shape0 == x.shape1) && (x.shape0 &&& 31 == 0)) = true
  · obtain ⟨hu, hsq, hmod⟩ := (fastPathCond_iff u x).mp hc
    have hfast : _fftshift u x = gpuShift x := by
      simp only [_fftshift]
      rw [if_pos hc]
    have hfast2 : _ifftshift u (gpuShift x) = gpuShift (gpuShift x) := by
      simp only [_ifftshift, gpuShift_shape0, gpuShift_shape1]
      rw [if_pos hc]
    rw [hfast, hfast2]
    have hN : x.shape0 = 2 * (x.shape0 / 2) := by omega
    have hj0 : j < x.shape0 := by rw [hsq]; exact hj
    set h := x.shape0 / 2 with hh
    have hlt : 0 < x.shape0 := by omega
    have harg : ∀ a : Nat, a < x.shape0 → ((a + h) % x.shape0 + h) % x.shape0 = a := by
      intro a ha
      rw [Nat.mod_add_mod, Nat.add_assoc]
      have e2 : h + h = x.shape0 := by omega
      rw [e2, Nat.add_mod_right, Nat.mod_eq_of_lt ha]
    have d1 : (gpuShift (gpuShift x)).data i j =
        (gpuShift x).data ((i + h) % x.shape0) ((j + h) % x.shape0) :=
      gpuShift_data (gpuShift x) h hN i j hi hj0
    have d2 : (gpuShift x).data ((i + h) % x.shape0) ((j + h) % x.shape0) =
        x.data (((i + h) % x.shape0 + h) % x.shape0) (((j + h) % x.shape0 + h) % x.shape0) :=
      gpuShift_data x h hN _ _ (Nat.mod_lt _ hlt) (Nat.mod_lt _ hlt)
    rw [d1, d2, harg i hi, harg j hj0]
  · have hfast : _fftshift u x = { x with data := np_fftshift x.shape0 x.shape1 x.data } := by
      simp only [_fftshift]
      rw [if_neg hc]
    have hfast2 : _ifftshift u { x with data := np_fftshift x.shape0 x.shape1 x.data } =
        { x with data := np_ifftshift x.shape0 x.shape1 (np_fftshift x.shape0 x.shape1 x.data) } := by
      simp only [_ifftshift]
      rw [if_neg hc]
    rw [hfast, hfast2]
    exact np_shift_roundtrip x.shape0 x.shape1 x.data i j hi hj

/-- A concrete 2 × 2 array (takes the numpy path: 2 is not a multiple of 32). -/
def X22 : NDArray ℚ := ⟨2, 2, Dtype.complex128, fun i j => (i : ℚ) * 2 + (j : ℚ)⟩

/-- A concrete 32 × 32 array (takes the CUDA fast path when enabled). -/
def X32 : NDArray ℚ := ⟨32, 32, Dtype.complex128, fun i j => (i : ℚ) * 32 + (j : ℚ)⟩

theorem shift_roundtrip_exact_witness :
    X22.shape0 % 2 = 0 ∧ (1 : Nat) < X22.shape0 ∧
      (_ifftshift true (_fftshift true X22)).data 1 1 = X22.data 1 1 :=
  ⟨by decide, by decide,
    shift_roundtrip_exact true X22 (by decide) (by decide) 1 1 (by decide) (by decide)⟩

/-! ## Claim C7: the kernel's closed-form swap offsets -/

/-- **C7 counterexample**: the kernel does not use the offset
`half_size² + half_size`. At `N = 32` (`half_size = 16`) the first-quadrant
thread at flat index 0 reads from offset `(N² + N)/2 = 528`, while
`half_size² + half_size = 16·16 + 16 = 272`. -/
theorem cufftShift_offset_counterexample :
    cufftShift_2D_kernel 32 (fun k => (k : Int)) 0 = 528 ∧ (528 : Int) ≠ 16 * 16 + 16 := by
  constructor
  · decide
  · decide

/-- **C7 amended**: on a square array of even side `N = 2·half_size`, the
kernel swaps opposite quadrants pairwise — quadrant 1 (top-left) with
quadrant 3 and quadrant 2 with quadrant 4 — using the closed-form index
offsets `2·half_size² + half_size` (that is, `(N² + N)/2`) for the 1/3 swap
and `2·half_size² − half_size` (that is, `(N² − N)/2`) for the 2/4 swap. -/
theorem cufftShift_swap_offsets (h : Nat) (data : Nat → α) (i j : Nat) (hi : i < h) :
    (j < h →
      cufftShift_2D_kernel (2 * h) data (i * (2 * h) + j) =
          data (i * (2 * h) + j + (2 * (h * h) + h))
        ∧ cufftShift_2D_kernel (2 * h) data (i * (2 * h) + j + (2 * (h * h) + h)) =
          data (i * (2 * h) + j))
    ∧ (h ≤ j → j < 2 * h →
      cufftShift_2D_kernel (2 * h) data (i * (2 * h) + j) =
          data (i * (2 * h) + j + (2 * (h * h) - h))
        ∧ cufftShift_2D_kernel (2 * h) data (i * (2 * h) + j + (2 * (h * h) - h)) =
          data (i * (2 * h) + j)) := by
  have hh : 0 < h := by omega
  constructor
  · intro hj
    have e1 : i * (2 * h) + j + (2 * (h * h) + h) = (i + h) * (2 * h) + (j + h) := by ring
    constructor
    · rw [cufftShift_closed_form h data i j (by omega) (by omega)]
      rw [Nat.mod_eq_of_lt (by omega : i + h < 2 * h),
        Nat.mod_eq_of_lt (by omega : j + h < 2 * h), ← e1]
    · rw [e1, cufftShift_closed_form h data (i + h) (j + h) (by omega) (by omega)]
      congr 1
      rw [Nat.add_assoc, Nat.add_assoc]
      have e2 : h + h = 2 * h := by omega
      rw [e2, Nat.add_mod_right, Nat.add_mod_right,
        Nat.mod_eq_of_lt (by omega : i < 2 * h), Nat.mod_eq_of_lt (by omega : j < 2 * h)]
  · intro hjl hjr
    have hsq := h_le_two_sq h
    have e1 : i * (2 * h) + j + (2 * (h * h) - h) = (i + h) * (2 * h) + (j - h) := by
      have e2 : (i + h) * (2 * h) = i * (2 * h) + 2 * (h * h) := by ring
      rw [e2]
      omega
    constructor
    · rw [cufftShift_closed_form h data i j (by omega) hjr]
      rw [Nat.mod_eq_of_lt (by omega : i + h < 2 * h),
        Nat.mod_eq_sub_mod (by omega : 2 * h ≤ j + h),
        Nat.mod_eq_of_lt (by omega : j + h - 2 * h < 2 * h)]
      congr 1
      have e2 : (i + h) * (2 * h) = i * (2 * h) + 2 * (h * h) := by ring
      rw [e2]
      omega
    · rw [e1, cufftShift_closed_form h data (i + h) (j - h) (by omega) (by omega)]
      congr 1
      have e3 : j - h + h = j := by omega
      rw [Nat.add_assoc]
      have e2 : h + h = 2 * h := by omega
      rw [e2, Nat.add_mod_right, e3,
        Nat.mod_eq_of_lt (by omega : i < 2 * h), Nat.mod_eq_of_lt hjr]

theorem cufftShift_swap_offsets_witness :
    (0 : Nat) < 1 ∧
      cufftShift_2D_kernel 2 (fun k => (k : Int)) 0 = (fun k => (k : Int)) 3
      ∧ cufftShift_2D_kernel 2 (fun k => (k : Int)) 3 = (fun k => (k : Int)) 0 :=
  ⟨by decide,
    ((cufftShift_swap_offsets 1 (fun k => (k : Int)) 0 0 (by decide)).1 (by decide)).1,
    ((cufftShift_swap_offsets 1 (fun k => (k : Int)) 0 0 (by decide)).1 (by decide)).2⟩

/-! ## Claim C9: fast-path condition characterization -/

/-- **C9**: `_fftshift` and `_ifftshift` take the GPU kernel fast path exactly
when the CUDA flag is set, the array is square and the side length is a
multiple of 32, the latter tested with the bitmask `(N & 31) == 0` which
equals the test `N % 32 == 0`; in every other case they return numpy's
universal `fftshift`/`ifftshift` reindexing of the input (defined for every
shape, including odd and non-square ones). -/
theorem shift_fast_path_characterization (u : Bool) (x : NDArray α) :
    ((x.shape0 &&& 31 == 0) = (x.shape0 % 32 == 0))
    ∧ (u = true → x.shape0 = x.shape1 → x.shape0 % 32 = 0 →
        _fftshift u x = gpuShift x ∧ _ifftshift u x = gpuShift x)
    ∧ (¬ (u = true ∧ x.shape0 = x.shape1 ∧ x.shape0 % 32 = 0) →
        _fftshift u x = { x with data := np_fftshift x.shape0 x.shape1 x.data }
        ∧ _ifftshift u x = { x with data := np_ifftshift x.shape0 x.shape1 x.data }) := by
  refine ⟨by rw [and31_eq_mod32], ?_, ?_⟩
  · intro hu hsq hmod
    have hc : (u && (x.shape0 == x.shape1) && (x.shape0 &&& 31 == 0)) = true :=
      (fastPathCond_iff u x).mpr ⟨hu, hsq, hmod⟩
    constructor
    · simp only [_fftshift]
      rw [if_pos hc]
    · simp only [_ifftshift]
      rw [if_pos hc]
  · intro hn
    have hc : ¬ (u && (x.shape0 == x.shape1) && (x.shape0 &&& 31 == 0)) = true :=
      fun hcond => hn ((fastPathCond_iff u x).mp hcond)
    constructor
    · simp only [_fftshift]
      rw [if_neg hc]
    · simp only [_ifftshift]
      rw [if_neg hc]

theorem shift_fast_path_characterization_witness :
    ((X32.shape0 &&& 31 == 0) = (X32.shape0 % 32 == 0))
    ∧ _fftshift true X32 = gpuShift X32 ∧ _ifftshift true X32 = gpuShift X32 :=
  ⟨(shift_fast_path_characterization true X32).1,
    ((shift_fast_path_characterization true X32).2.1 rfl rfl (by decide)).1,
    ((shift_fast_path_characterization true X32).2.1 rfl rfl (by decide)).2⟩

/-! ## Claim C10: the fast paths of the two shifts coincide -/

/-- **C10**: whenever the CUDA fast-path condition holds (CUDA flag set,
square array, side length a multiple of 32), `_fftshift` and `_ifftshift`
perform the identical computation — both run `cufftShift_2D_kernel` on the
flattened buffer with the same launch configuration — so the two functions
agree on the fast path. -/
theorem gpu_fast_path_shifts_equal (u : Bool) (x : NDArray α)
    (hu : u = true) (hsq : x.shape0 = x.shape1) (hm : x.shape0 % 32 = 0) :
    _fftshift u x = _ifftshift u x := by
  have hc : (u && (x.shape0 == x.shape1) && (x.shape0 &&& 31 == 0)) = true :=
    (fastPathCond_iff u x).mpr ⟨hu, hsq, hm⟩
  simp only [_fftshift, _ifftshift]
  rw [if_pos hc, if_pos hc]

theorem gpu_fast_path_shifts_equal_witness :
    X32.shape0 % 32 = 0 ∧ _fftshift true X32 = _ifftshift true X32 :=
  ⟨by decide, gpu_fast_path_shifts_equal true X32 rfl rfl (by decide)⟩

/-! ## Dispatcher lemmas -/

lemma _ifftshift_shape0 (u : Bool) (x : NDArray α) : (_ifftshift u x).shape0 = x.shape0 := by
  simp only [_ifftshift]
  split <;> rfl

lemma _ifftshift_shape1 (u : Bool) (x : NDArray α) : (_ifftshift u x).shape1 = x.shape1 := by
  simp only [_ifftshift]
  split <;> rfl

/-- The pre-transform inverse shift of line 194-195 does not change the shape. -/
lemma preshift_shape0 (u b : Bool) (wf : NDArray ℚ) :
    (if b then _ifftshift u wf else wf).shape0 = wf.shape0 := by
  split
  · exact _ifftshift_shape0 u wf
  · rfl

lemma preshift_shape1 (u b : Bool) (wf : NDArray ℚ) :
    (if b then _ifftshift u wf else wf).shape1 = wf.shape1 := by
  split
  · exact _ifftshift_shape1 u wf
  · rfl

lemma scale_one (a : NDArray ℚ) : scale 1 a = a := by
  obtain ⟨m, n, dt, f⟩ := a
  simp only [scale, one_mul]

/-- `fft_2d` behaves as if the caller had passed the resolved scalar
explicitly: resolution happens once, from the selected backend, the direction
and the (shift-invariant) leading dimension. -/
lemma fft_2d_norm_resolved (impl : BackendImpls) (conf : Conf) (caps : Caps)
    (ncpus : Nat) (st : FFTWInit) (wf : NDArray ℚ) (fwd : Bool)
    (norm : Option ℚ) (sh : Bool) :
    fft_2d impl conf caps ncpus st wf fwd norm sh =
      fft_2d impl conf caps ncpus st wf fwd
        (some (norm.getD (defaultNorm (selectBackend conf caps wf.shape0) fwd wf.shape0))) sh := by
  cases norm with
  | some v => rfl
  | none =>
      simp only [fft_2d, Option.getD]
      rw [preshift_shape0]

/-- Unfolding of `fft_2d` when the CUDA backend is selected: only
`impl.cuda_fft` runs, the `_FFTW_INIT` cache is untouched and no calibration
happens. -/
lemma fft_2d_cuda_run (impl : BackendImpls) (conf : Conf) (caps : Caps)
    (ncpus : Nat) (st : FFTWInit) (wf : NDArray ℚ) (fwd : Bool)
    (norm : Option ℚ) (sh : Bool)
    (hsel : selectBackend conf caps wf.shape0 = Backend.cuda) :
    fft_2d impl conf caps ncpus st wf fwd norm sh =
      (Except.ok (scale (norm.getD (defaultNorm Backend.cuda fwd wf.shape0))
          (if fwd && sh then
            _fftshift (conf.use_cuda && caps.cuda)
              (impl.cuda_fft fwd (if (!fwd) && sh then _ifftshift (conf.use_cuda && caps.cuda) wf else wf))
          else
            impl.cuda_fft fwd (if (!fwd) && sh then _ifftshift (conf.use_cuda && caps.cuda) wf else wf))),
        st, []) := by
  simp only [fft_2d, hsel]
  rw [preshift_shape0]
  cases norm <;> simp only [Option.getD]

/-- Unfolding of `fft_2d` when the numpy backend is selected. -/
lemma fft_2d_numpy_run (impl : BackendImpls) (conf : Conf) (caps : Caps)
    (ncpus : Nat) (st : FFTWInit) (wf : NDArray ℚ) (fwd : Bool)
    (norm : Option ℚ) (sh : Bool)
    (hsel : selectBackend conf caps wf.shape0 = Backend.numpy) :
    fft_2d impl conf caps ncpus st wf fwd norm sh =
      (Except.ok (scale (norm.getD (defaultNorm Backend.numpy fwd wf.shape0))
          (if fwd && sh then
            _fftshift (conf.use_cuda && caps.cuda)
              (impl.numpy_fft fwd (if (!fwd) && sh then _ifftshift (conf.use_cuda && caps.cuda) wf else wf))
          else
            impl.numpy_fft fwd (if (!fwd) && sh then _ifftshift (conf.use_cuda && caps.cuda) wf else wf))),
        st, []) := by
  simp only [fft_2d, hsel]
  rw [preshift_shape0]
  cases norm <;> simp only [Option.getD]

/-- The (cache, events) effect of the FFTW branch, as a function of the shape
and direction only (the transform results do not feed back into the cache). -/
def fftwStEv (impl : BackendImpls) (ncpus : Nat) (forward : Bool) (m n : Nat)
    (st : FFTWInit) : FFTWInit × List CalibEvent :=
  let key : PlanKey := ((m, n), forward)
  if key ∈ st then (st, [])
  else
    let ev : CalibEvent := ⟨key, np_zeros m n, "FFTW_MEASURE", ncpus⟩
    match impl.fftw_fft forward (np_zeros m n) "FFTW_MEASURE" ncpus with
    | Except.error _ => (st, [ev])
    | Except.ok _ => (key :: st, [ev])

lemma fftwBranch_stEv (impl : BackendImpls) (ncpus : Nat) (forward : Bool)
    (w : NDArray ℚ) (st : FFTWInit) :
    (fftwBranch impl ncpus forward w st).2 = fftwStEv impl ncpus forward w.shape0 w.shape1 st := by
  simp only [fftwBranch, fftwStEv]
  split
  · rfl
  · rcases impl.fftw_fft forward (np_zeros w.shape0 w.shape1) "FFTW_MEASURE" ncpus with e | a <;> rfl

/-- The (cache, events) effect of one `fft_2d` call: the FFTW branch effect if
the FFTW backend was selected, nothing otherwise. -/
lemma fft_2d_state_events (impl : BackendImpls) (conf : Conf) (caps : Caps)
    (ncpus : Nat) (st : FFTWInit) (wf : NDArray ℚ) (fwd : Bool)
    (norm : Option ℚ) (sh : Bool) :
    (fft_2d impl conf caps ncpus st wf fwd norm sh).2 =
      if selectBackend conf caps wf.shape0 = Backend.fftw then
        fftwStEv impl ncpus fwd wf.shape0 wf.shape1 st
      else (st, []) := by
  simp only [fft_2d]
  rcases hb : selectBackend conf caps wf.shape0 with _ | _ | _ | _
  · rfl
  · rfl
  · have hform := fftwBranch_stEv impl ncpus fwd
      (if (!fwd) && sh then _ifftshift (conf.use_cuda && caps.cuda) wf else wf) st
    rw [preshift_shape0, preshift_shape1] at hform
    rcases hfb : fftwBranch impl ncpus fwd
        (if (!fwd) && sh then _ifftshift (conf.use_cuda && caps.cuda) wf else wf) st
      with ⟨res, st1, evs⟩
    rw [hfb] at hform
    cases res <;> simpa using hform
  · rfl

lemma countCalib_nil (k : PlanKey) : countCalib k [] = 0 := rfl

lemma countCalib_append (k : PlanKey) (a b : List CalibEvent) :
    countCalib k (a ++ b) = countCalib k a + countCalib k b := by
  simp [countCalib, List.filter_append]

lemma countCalib_single (k : PlanKey) (ev : CalibEvent) :
    countCalib k [ev] = if ev.key = k then 1 else 0 := by
  simp only [countCalib, List.filter]
  split <;> simp_all

/-- Keys already in the cache survive the FFTW branch (the cache only grows). -/
lemma fftwStEv_mem (impl : BackendImpls) (ncpus : Nat) (fwd : Bool) (m n : Nat)
    (st : FFTWInit) (k : PlanKey) (hk : k ∈ st) :
    k ∈ (fftwStEv impl ncpus fwd m n st).1 := by
  simp only [fftwStEv]
  split
  · exact hk
  · rcases impl.fftw_fft fwd (np_zeros m n) "FFTW_MEASURE" ncpus with e | a
    · exact hk
    · exact List.mem_cons_of_mem _ hk

/-- Every calibration event of the FFTW branch is the canonical one: it
carries the call's key, a freshly allocated zero buffer of the call's shape,
measure mode, all logical processors — and can only happen for an unmarked key. -/
lemma fftwStEv_events (impl : BackendImpls) (ncpus : Nat) (fwd : Bool) (m n : Nat)
    (st : FFTWInit) (ev : CalibEvent) (hev : ev ∈ (fftwStEv impl ncpus fwd m n st).2) :
    ev = ⟨((m, n), fwd), np_zeros m n, "FFTW_MEASURE", ncpus⟩ ∧ (((m, n), fwd) : PlanKey) ∉ st := by
  by_cases hk : (((m, n), fwd) : PlanKey) ∈ st
  · rw [fftwStEv, if_pos hk] at hev
    exact absurd hev (List.not_mem_nil ev)
  · rw [fftwStEv, if_neg hk] at hev
    rcases hm : impl.fftw_fft fwd (np_zeros m n) "FFTW_MEASURE" ncpus with e | a <;>
      rw [hm] at hev <;> simp only [List.mem_singleton] at hev <;> exact ⟨hev, hk⟩

lemma fftwStEv_count_mem (impl : BackendImpls) (ncpus : Nat) (fwd : Bool) (m n : Nat)
    (st : FFTWInit) (k : PlanKey) (hk : k ∈ st) :
    countCalib k (fftwStEv impl ncpus fwd m n st).2 = 0 := by
  rw [countCalib, List.length_eq_zero, List.filter_eq_nil_iff]
  intro ev hev
  obtain ⟨hform, hnot⟩ := fftwStEv_events impl ncpus fwd m n st ev hev
  subst hform
  simp only [decide_eq_true_eq]
  intro hkk
  rw [← hkk] at hk
  exact hnot hk

lemma fftwStEv_count_le_one (impl : BackendImpls) (ncpus : Nat) (fwd : Bool)
    (m n : Nat) (st : FFTWInit) (k : PlanKey) :
    countCalib k (fftwStEv impl ncpus fwd m n st).2 ≤ 1 := by
  simp only [fftwStEv]
  split
  · show countCalib k [] ≤ 1
    rw [countCalib_nil]
    omega
  · rcases impl.fftw_fft fwd (np_zeros m n) "FFTW_MEASURE" ncpus with e | a <;>
      · show countCalib k [_] ≤ 1
        rw [countCalib_single]
        split <;> omega

/-- If the FFTW branch emits a calibration event for key `k`, the key was
unmarked, it is the call's own key, and — when the calibration transform
succeeds — the branch marks it. -/
lemma fftwStEv_count_pos (impl : BackendImpls) (ncpus : Nat) (fwd : Bool) (m n : Nat)
    (st : FFTWInit) (k : PlanKey)
    (hpos : countCalib k (fftwStEv impl ncpus fwd m n st).2 ≠ 0) :
    k = ((m, n), fwd) ∧ k ∉ st ∧
      (exceptIsOk (impl.fftw_fft fwd (np_zeros m n) "FFTW_MEASURE" ncpus) = true →
        (fftwStEv impl ncpus fwd m n st).1 = k :: st) := by
  have hex : ∃ ev ∈ (fftwStEv impl ncpus fwd m n st).2, ev.key = k := by
    by_contra hno
    push_neg at hno
    apply hpos
    rw [countCalib, List.length_eq_zero, List.filter_eq_nil_iff]
    intro ev hev
    simpa using hno ev hev
  obtain ⟨ev, hev, hkey⟩ := hex
  obtain ⟨hform, hnot⟩ := fftwStEv_events impl ncpus fwd m n st ev hev
  subst hform
  simp only at hkey
  refine ⟨hkey.symm, by rw [hkey] at hnot; exact hnot, ?_⟩
  intro hok
  simp only [fftwStEv]
  rw [if_neg hnot]
  rcases hm : impl.fftw_fft fwd (np_zeros m n) "FFTW_MEASURE" ncpus with e | a
  · rw [hm] at hok
    simp [exceptIsOk] at hok
  · simp only [hm]
    rw [hkey]

/-- A marked key stays marked after any `fft_2d` call. -/
lemma fft_2d_mem_state (impl : BackendImpls) (conf : Conf) (caps : Caps) (ncpus : Nat)
    (st : FFTWInit) (wf : NDArray ℚ) (fwd : Bool) (norm : Option ℚ) (sh : Bool)
    (k : PlanKey) (hk : k ∈ st) :
    k ∈ (fft_2d impl conf caps ncpus st wf fwd norm sh).2.1 := by
  rw [congrArg Prod.fst (fft_2d_state_events impl conf caps ncpus st wf fwd norm sh)]
  split
  · exact fftwStEv_mem impl ncpus fwd wf.shape0 wf.shape1 st k hk
  · exact hk

/-- One call runs the calibration pass at most once. -/
lemma fft_2d_calib_le_one (impl : BackendImpls) (conf : Conf) (caps : Caps) (ncpus : Nat)
    (st : FFTWInit) (wf : NDArray ℚ) (fwd : Bool) (norm : Option ℚ) (sh : Bool) (k : PlanKey) :
    countCalib k (fft_2d impl conf caps ncpus st wf fwd norm sh).2.2 ≤ 1 := by
  rw [congrArg Prod.snd (fft_2d_state_events impl conf caps ncpus st wf fwd norm sh)]
  split
  · exact fftwStEv_count_le_one impl ncpus fwd wf.shape0 wf.shape1 st k
  · show countCalib k [] ≤ 1
    rw [countCalib_nil]
    omega

/-- A call whose key is already marked runs no calibration for it. -/
lemma fft_2d_count_mem (impl : BackendImpls) (conf : Conf) (caps : Caps) (ncpus : Nat)
    (st : FFTWInit) (wf : NDArray ℚ) (fwd : Bool) (norm : Option ℚ) (sh : Bool)
    (k : PlanKey) (hk : k ∈ st) :
    countCalib k (fft_2d impl conf caps ncpus st wf fwd norm sh).2.2 = 0 := by
  rw [congrArg Prod.snd (fft_2d_state_events impl conf caps ncpus st wf fwd norm sh)]
  split
  · exact fftwStEv_count_mem impl ncpus fwd wf.shape0 wf.shape1 st k hk
  · rfl

/-- A call that does calibrate `k` had `k` unmarked, `k` is the call's own
key, and on calibration success the call marks `k`. -/
lemma fft_2d_count_pos (impl : BackendImpls) (conf : Conf) (caps : Caps) (ncpus : Nat)
    (st : FFTWInit) (wf : NDArray ℚ) (fwd : Bool) (norm : Option ℚ) (sh : Bool)
    (k : PlanKey)
    (hpos : countCalib k (fft_2d impl conf caps ncpus st wf fwd norm sh).2.2 ≠ 0) :
    k = ((wf.shape0, wf.shape1), fwd) ∧ k ∉ st ∧
      (exceptIsOk (impl.fftw_fft fwd (np_zeros wf.shape0 wf.shape1) "FFTW_MEASURE" ncpus) = true →
        (fft_2d impl conf caps ncpus st wf fwd norm sh).2.1 = k :: st) := by
  have h2 := fft_2d_state_events impl conf caps ncpus st wf fwd norm sh
  by_cases hsel : selectBackend conf caps wf.shape0 = Backend.fftw
  · rw [if_pos hsel] at h2
    rw [congrArg Prod.snd h2] at hpos
    obtain ⟨hk1, hk2, hk3⟩ := fftwStEv_count_pos impl ncpus fwd wf.shape0 wf.shape1 st k hpos
    refine ⟨hk1, hk2, fun hok => ?_⟩
    rw [congrArg Prod.fst h2]
    exact hk3 hok
  · rw [if_neg hsel] at h2
    rw [congrArg Prod.snd h2] at hpos
    exact absurd rfl hpos

/-- Events attached to one call all have the canonical calibration form. -/
lemma fft_2d_events_form (impl : BackendImpls) (conf : Conf) (caps : Caps) (ncpus : Nat)
    (st : FFTWInit) (wf : NDArray ℚ) (fwd : Bool) (norm : Option ℚ) (sh : Bool)
    (ev : CalibEvent) (hev : ev ∈ (fft_2d impl conf caps ncpus st wf fwd norm sh).2.2) :
    ev = ⟨((wf.shape0, wf.shape1), fwd), np_zeros wf.shape0 wf.shape1, "FFTW_MEASURE", ncpus⟩ := by
  rw [congrArg Prod.snd (fft_2d_state_events impl conf caps ncpus st wf fwd norm sh)] at hev
  rcases hif : selectBackend conf caps wf.shape0 = Backend.fftw with _
  by_cases hsel : selectBackend conf caps wf.shape0 = Backend.fftw
  · rw [if_pos hsel] at hev
    exact (fftwStEv_events impl ncpus fwd wf.shape0 wf.shape1 st ev hev).1
  · rw [if_neg hsel] at hev
    exact absurd hev (List.not_mem_nil ev)

/-- Marked keys stay marked over any sequence of calls. -/
lemma runCalls_mem (impl : BackendImpls) (caps : Caps) (ncpus : Nat)
    (reqs : List Request) (st : FFTWInit) (k : PlanKey) (hk : k ∈ st) :
    k ∈ (runCalls impl caps ncpus reqs st).1 := by
  induction reqs generalizing st with
  | nil => exact hk
  | cons r rs ih =>
      simp only [runCalls]
      exact ih _ (fft_2d_mem_state impl r.conf caps ncpus st r.wf r.forward r.norm r.fftshift k hk)

/-- No calibration ever runs for a key that is already marked. -/
lemma runCalls_count_mem (impl : BackendImpls) (caps : Caps) (ncpus : Nat)
    (reqs : List Request) (st : FFTWInit) (k : PlanKey) (hk : k ∈ st) :
    countCalib k (runCalls impl caps ncpus reqs st).2 = 0 := by
  induction reqs generalizing st with
  | nil => rfl
  | cons r rs ih =>
      simp only [runCalls]
      rw [countCalib_append,
        fft_2d_count_mem impl r.conf caps ncpus st r.wf r.forward r.norm r.fftshift k hk,
        ih _ (fft_2d_mem_state impl r.conf caps ncpus st r.wf r.forward r.norm r.fftshift k hk)]

/-- Across any sequence of calls, if the calibration transform succeeds for a
key, the destructive calibration pass runs at most once for that key. -/
lemma runCalls_count_le_one (impl : BackendImpls) (caps : Caps) (ncpus : Nat)
    (k : PlanKey) (reqs : List Request) (st : FFTWInit)
    (hsucc : exceptIsOk (impl.fftw_fft k.2 (np_zeros k.1.1 k.1.2) "FFTW_MEASURE" ncpus) = true) :
    countCalib k (runCalls impl caps ncpus reqs st).2 ≤ 1 := by
  induction reqs generalizing st with
  | nil =>
      show countCalib k [] ≤ 1
      rw [countCalib_nil]
      omega
  | cons r rs ih =>
      simp only [runCalls]
      rw [countCalib_append]
      by_cases h0 : countCalib k
          (fft_2d impl r.conf caps ncpus st r.wf r.forward r.norm r.fftshift).2.2 = 0
      · rw [h0]
        simpa using ih _
      · obtain ⟨hk_eq, _, hmark⟩ :=
          fft_2d_count_pos impl r.conf caps ncpus st r.wf r.forward r.norm r.fftshift k h0
        have hok : exceptIsOk (impl.fftw_fft r.forward
            (np_zeros r.wf.shape0 r.wf.shape1) "FFTW_MEASURE" ncpus) = true := by
          rw [hk_eq] at hsucc
          exact hsucc
        have hrest : countCalib k (runCalls impl caps ncpus rs
            (fft_2d impl r.conf caps ncpus st r.wf r.forward r.norm r.fftshift).2.1).2 = 0 := by
          rw [hmark hok]
          exact runCalls_count_mem impl caps ncpus rs _ k (List.mem_cons_self k st)
        rw [hrest]
        have hhead := fft_2d_calib_le_one impl r.conf caps ncpus st r.wf r.forward r.norm r.fftshift k
        omega

/-- Every calibration event over a run has the canonical form: the buffer is
a zero-filled fresh array of the key's own shape. -/
lemma runCalls_events_form (impl : BackendImpls) (caps : Caps) (ncpus : Nat)
    (reqs : List Request) (st : FFTWInit) (ev : CalibEvent)
    (hev : ev ∈ (runCalls impl caps ncpus reqs st).2) :
    ev.buffer = np_zeros ev.key.1.1 ev.key.1.2 ∧ ev.planner_effort = "FFTW_MEASURE"
      ∧ ev.threads = ncpus := by
  induction reqs generalizing st with
  | nil => exact absurd hev (List.not_mem_nil ev)
  | cons r rs ih =>
      simp only [runCalls] at hev
      rw [List.mem_append] at hev
      rcases hev with h | h
      · have hform := fft_2d_events_form impl r.conf caps ncpus st r.wf r.forward r.norm r.fftshift ev h
        subst hform
        exact ⟨rfl, rfl, rfl⟩
      · exact ih _ h

/-- Unfolding of `fft_2d` when the FFTW backend is selected, the key is not
yet calibrated and the calibration transform raises: the error propagates to
the caller and the key is left unmarked. -/
lemma fft_2d_fftw_error (impl : BackendImpls) (conf : Conf) (caps : Caps) (ncpus : Nat)
    (st : FFTWInit) (wf : NDArray ℚ) (fwd : Bool) (norm : Option ℚ) (sh : Bool) (e : String)
    (hsel : selectBackend conf caps wf.shape0 = Backend.fftw)
    (hkey : (((wf.shape0, wf.shape1), fwd) : PlanKey) ∉ st)
    (hfail : impl.fftw_fft fwd (np_zeros wf.shape0 wf.shape1) "FFTW_MEASURE" ncpus =
      Except.error e) :
    fft_2d impl conf caps ncpus st wf fwd norm sh =
      (Except.error e, st,
        [⟨((wf.shape0, wf.shape1), fwd), np_zeros wf.shape0 wf.shape1, "FFTW_MEASURE", ncpus⟩]) := by
  have hb : fftwBranch impl ncpus fwd
      (if (!fwd) && sh then _ifftshift (conf.use_cuda && caps.cuda) wf else wf) st =
      (Except.error e, st,
        [⟨((wf.shape0, wf.shape1), fwd), np_zeros wf.shape0 wf.shape1, "FFTW_MEASURE", ncpus⟩]) := by
    simp only [fftwBranch, preshift_shape0, preshift_shape1]
    rw [if_neg hkey, hfail]
  simp only [fft_2d, hsel, hb]

/-! ## Concrete instances for the witnesses -/

/-- Backend libraries where every call succeeds and transforms are the
identity. -/
def okImpl : BackendImpls :=
  ⟨fun _ a => a, fun _ a => a, fun _ a _ _ => Except.ok a, fun _ a => a⟩

/-- Backend libraries whose pyfftw interface call always raises. -/
def failImpl : BackendImpls :=
  ⟨fun _ a => a, fun _ a => a, fun _ _ _ _ => Except.error "planner failure", fun _ a => a⟩

/-- Everything enabled and available. -/
def confAll : Conf := ⟨true, true, true, true, true⟩

def capsAll : Caps := ⟨true, true, true⟩

/-- FFTW-only configuration, single precision. -/
def confF : Conf := ⟨false, false, true, false, false⟩

def capsF : Caps := ⟨false, false, true⟩

/-- OpenCL-only configuration. -/
def confO : Conf := ⟨false, true, false, false, false⟩

def capsO : Caps := ⟨false, true, false⟩

/-- A 100 × 100 array: 100 is not a power of two. -/
def X100 : NDArray ℚ := ⟨100, 100, Dtype.complex128, fun i j => (i : ℚ) + (j : ℚ)⟩

/-- One forward FFTW call on the 2 × 2 array. -/
def req22 : Request := ⟨confF, X22, true, none, true⟩

/-! ## Claim C1: backend priority and determinism -/

/-- **C1**: exactly one backend executes per call, selected by the fixed
priority order CUDA > OpenCL > FFTW > numpy over the per-call effective flags
`conf.use_x && caps.x`; in particular, if CUDA, OpenCL and FFTW are all
capable and enabled, the CUDA backend is always selected, and the call's
entire outcome then depends only on the CUDA transform (no other backend
executes). -/
theorem fft_2d_backend_priority (conf : Conf) (caps : Caps) (wf : NDArray ℚ) :
    (selectBackend conf caps wf.shape0 = Backend.cuda ↔ (conf.use_cuda && caps.cuda) = true)
    ∧ (selectBackend conf caps wf.shape0 = Backend.opencl ↔
        ((conf.use_cuda && caps.cuda) = false ∧
          ((conf.use_opencl && caps.opencl) && ispowerof2 wf.shape0) = true))
    ∧ (selectBackend conf caps wf.shape0 = Backend.fftw ↔
        ((conf.use_cuda && caps.cuda) = false ∧
          ((conf.use_opencl && caps.opencl) && ispowerof2 wf.shape0) = false ∧
          (conf.use_fftw && caps.fftw) = true))
    ∧ (selectBackend conf caps wf.shape0 = Backend.numpy ↔
        ((conf.use_cuda && caps.cuda) = false ∧
          ((conf.use_opencl && caps.opencl) && ispowerof2 wf.shape0) = false ∧
          (conf.use_fftw && caps.fftw) = false))
    ∧ ((conf.use_cuda && caps.cuda) = true ∧ (conf.use_opencl && caps.opencl) = true ∧
          (conf.use_fftw && caps.fftw) = true →
        selectBackend conf caps wf.shape0 = Backend.cuda ∧
          ∀ (impl impl2 : BackendImpls) (ncpus : Nat) (st : FFTWInit) (fwd : Bool)
            (norm : Option ℚ) (sh : Bool), impl.cuda_fft = impl2.cuda_fft →
            fft_2d impl conf caps ncpus st wf fwd norm sh =
              fft_2d impl2 conf caps ncpus st wf fwd norm sh) := by
  by_cases hc : (conf.use_cuda && caps.cuda) = true
  · have hsel : selectBackend conf caps wf.shape0 = Backend.cuda := by
      simp [selectBackend, hc]
    refine ⟨by simp [hsel, hc], by simp [hsel, hc], by simp [hsel, hc], by simp [hsel, hc],
      fun hall => ⟨hsel, fun impl impl2 ncpus st fwd norm sh hcf => ?_⟩⟩
    rw [fft_2d_cuda_run impl conf caps ncpus st wf fwd norm sh hsel,
      fft_2d_cuda_run impl2 conf caps ncpus st wf fwd norm sh hsel, hcf]
  · have hc0 : (conf.use_cuda && caps.cuda) = false := by
      rw [← Bool.not_eq_true]
      exact hc
    refine ⟨?_, ?_, ?_, ?_, fun hall => absurd hall.1 (by simp [hc0])⟩ <;>
      rcases ho : ((conf.use_opencl && caps.opencl) && ispowerof2 wf.shape0) with _ | _ <;>
        rcases hf : (conf.use_fftw && caps.fftw) with _ | _ <;>
          simp [selectBackend, hc0, ho, hf]

theorem fft_2d_backend_priority_witness :
    ((confAll.use_cuda && capsAll.cuda) = true ∧ (confAll.use_opencl && capsAll.opencl) = true ∧
      (confAll.use_fftw && capsAll.fftw) = true)
    ∧ selectBackend confAll capsAll X22.shape0 = Backend.cuda :=
  ⟨by decide, ((fft_2d_backend_priority confAll capsAll X22).2.2.2.2 (by decide)).1⟩

/-! ## Claim C2: OpenCL size demotion is call-scoped and silent -/

/-- **C2**: when the OpenCL backend is effective but the leading dimension is
not a power of two, OpenCL is skipped for this call (and, absent CUDA, the
call falls to FFTW or numpy, the next priorities); no exception arises from
the unsupported size (with both higher and lower priority backends absent the
call completes on numpy and even leaves the cache untouched); and nothing is
persisted: a later call with a power-of-two leading dimension selects OpenCL
again under the same flags. -/
theorem fft_2d_opencl_demotion (conf : Conf) (caps : Caps) (wf : NDArray ℚ)
    (heff : (conf.use_opencl && caps.opencl) = true)
    (hnp2 : ispowerof2 wf.shape0 = false) :
    selectBackend conf caps wf.shape0 ≠ Backend.opencl
    ∧ ((conf.use_cuda && caps.cuda) = false →
        selectBackend conf caps wf.shape0 =
          (if (conf.use_fftw && caps.fftw) = true then Backend.fftw else Backend.numpy))
    ∧ ((conf.use_cuda && caps.cuda) = false → (conf.use_fftw && caps.fftw) = false →
        ∀ (impl : BackendImpls) (ncpus : Nat) (st : FFTWInit) (fwd : Bool)
          (norm : Option ℚ) (sh : Bool),
          exceptIsOk (fft_2d impl conf caps ncpus st wf fwd norm sh).1 = true
          ∧ (fft_2d impl conf caps ncpus st wf fwd norm sh).2.1 = st
          ∧ (fft_2d impl conf caps ncpus st wf fwd norm sh).2.2 = [])
    ∧ (∀ s2 : Nat, ispowerof2 s2 = true → (conf.use_cuda && caps.cuda) = false →
        selectBackend conf caps s2 = Backend.opencl) := by
  refine ⟨?_, ?_, ?_, ?_⟩
  · simp only [selectBackend, hnp2, Bool.and_false]
    split_ifs <;> simp_all
  · intro hcuda
    simp [selectBackend, hnp2, hcuda]
  · intro hcuda hfftw impl ncpus st fwd norm sh
    have hsel : selectBackend conf caps wf.shape0 = Backend.numpy := by
      simp [selectBackend, hnp2, hcuda, hfftw]
    rw [fft_2d_numpy_run impl conf caps ncpus st wf fwd norm sh hsel]
    exact ⟨rfl, rfl, rfl⟩
  · intro s2 hp2 hcuda
    simp [selectBackend, hp2, hcuda, heff]

theorem fft_2d_opencl_demotion_witness :
    (confO.use_opencl && capsO.opencl) = true ∧ ispowerof2 X100.shape0 = false
    ∧ selectBackend confO capsO X100.shape0 ≠ Backend.opencl
    ∧ exceptIsOk (fft_2d okImpl confO capsO 4 [] X100 true none true).1 = true :=
  ⟨by decide, by decide,
    (fft_2d_opencl_demotion confO capsO X100 (by decide) (by decide)).1,
    ((fft_2d_opencl_demotion confO capsO X100 (by decide) (by decide)).2.2.1 (by decide)
      (by decide) okImpl 4 [] true none true).1⟩

/-! ## Claim C3: normalization resolution and single application -/

/-- **C3**: with `normalization=None` the resolved scalar is
`1/shape[0]` in both directions on the CUDA backend and `1/shape[0]`
forward / `shape[0]` inverse on the OpenCL, FFTW and numpy backends (the call
behaves exactly as if that scalar had been passed explicitly); a
caller-supplied scalar is used unchanged whatever the backend and direction,
and it is applied exactly once, as the final multiplication before the buffer
is returned: the result with scalar `v` is the `v`-scaling of the result with
scalar 1. -/
theorem fft_2d_normalization (impl : BackendImpls) (conf : Conf) (caps : Caps)
    (ncpus : Nat) (st : FFTWInit) (wf : NDArray ℚ) (fwd : Bool) (sh : Bool) :
    (fft_2d impl conf caps ncpus st wf fwd none sh =
      fft_2d impl conf caps ncpus st wf fwd
        (some (if selectBackend conf caps wf.shape0 = Backend.cuda then 1 / (wf.shape0 : ℚ)
          else if fwd then 1 / (wf.shape0 : ℚ) else (wf.shape0 : ℚ))) sh)
    ∧ ∀ v : ℚ,
        (fft_2d impl conf caps ncpus st wf fwd (some v) sh).1 =
          Except.map (fun a => scale v a)
            (fft_2d impl conf caps ncpus st wf fwd (some 1) sh).1 := by
  constructor
  · rw [fft_2d_norm_resolved impl conf caps ncpus st wf fwd none sh]
    have harg : (none : Option ℚ).getD
          (defaultNorm (selectBackend conf caps wf.shape0) fwd wf.shape0) =
        (if selectBackend conf caps wf.shape0 = Backend.cuda then 1 / (wf.shape0 : ℚ)
          else if fwd then 1 / (wf.shape0 : ℚ) else (wf.shape0 : ℚ)) := by
      simp only [Option.getD]
      rcases hb : selectBackend conf caps wf.shape0 with _ | _ | _ | _ <;> simp [defaultNorm]
    rw [harg]
  · intro v
    simp only [fft_2d]
    rcases hb : selectBackend conf caps wf.shape0 with _ | _ | _ | _
    · simp [Except.map, scale_one]
    · simp [Except.map, scale_one]
    · rcases hfb : fftwBranch impl ncpus fwd
          (if (!fwd) && sh then _ifftshift (conf.use_cuda && caps.cuda) wf else wf) st
        with ⟨res, st1, evs⟩
      cases res <;> simp [Except.map, scale_one]
    · simp [Except.map, scale_one]

/-! ## Claim C5: calibration at most once, on a throwaway zero buffer -/

/-- **C5**: across any sequence of `fft_2d` calls the destructive FFTW
calibration pass runs at most once per (shape, direction) key — provided the
calibration transform for that key succeeds (a raising pass is retried, see
the failure-handling claim); if the key is already marked calibrated the
calibration step is a no-op; and every calibration pass runs on a freshly
allocated zero-filled buffer of the key's own shape, never on the caller's
buffer. -/
theorem fftw_calibration_at_most_once (impl : BackendImpls) (caps : Caps) (ncpus : Nat)
    (k : PlanKey) (reqs : List Request) (st : FFTWInit) :
    (exceptIsOk (impl.fftw_fft k.2 (np_zeros k.1.1 k.1.2) "FFTW_MEASURE" ncpus) = true →
      countCalib k (runCalls impl caps ncpus reqs st).2 ≤ 1)
    ∧ (k ∈ st → countCalib k (runCalls impl caps ncpus reqs st).2 = 0)
    ∧ (∀ ev ∈ (runCalls impl caps ncpus reqs st).2,
        ev.buffer = np_zeros ev.key.1.1 ev.key.1.2 ∧ (∀ i j, ev.buffer.data i j = 0)) :=
  ⟨fun hsucc => runCalls_count_le_one impl caps ncpus k reqs st hsucc,
   fun hk => runCalls_count_mem impl caps ncpus reqs st k hk,
   fun ev hev =>
     ⟨(runCalls_events_form impl caps ncpus reqs st ev hev).1,
      fun i j => by rw [(runCalls_events_form impl caps ncpus reqs st ev hev).1]; rfl⟩⟩

theorem fftw_calibration_at_most_once_witness :
    exceptIsOk (okImpl.fftw_fft true (np_zeros 2 2) "FFTW_MEASURE" 4) = true
    ∧ countCalib ((2, 2), true) (runCalls okImpl capsF 4 [req22, req22] []).2 ≤ 1 :=
  ⟨rfl, (fftw_calibration_at_most_once okImpl capsF 4 ((2, 2), true) [req22, req22] []).1 rfl⟩

/-! ## Claim C6: calibration failures are not cached -/

/-- **C6**: if the FFTW calibration pass raises, the exception propagates to
the caller, the (shape, direction) key is left unmarked and the plan cache is
unchanged, so an identical next call runs the calibration pass again
(failures are never cached). -/
theorem fftw_calibration_failure_not_cached (impl : BackendImpls) (conf : Conf) (caps : Caps)
    (ncpus : Nat) (st : FFTWInit) (wf : NDArray ℚ) (fwd : Bool) (norm : Option ℚ)
    (sh : Bool) (e : String)
    (hsel : selectBackend conf caps wf.shape0 = Backend.fftw)
    (hkey : (((wf.shape0, wf.shape1), fwd) : PlanKey) ∉ st)
    (hfail : impl.fftw_fft fwd (np_zeros wf.shape0 wf.shape1) "FFTW_MEASURE" ncpus =
      Except.error e) :
    (fft_2d impl conf caps ncpus st wf fwd norm sh).1 = Except.error e
    ∧ (fft_2d impl conf caps ncpus st wf fwd norm sh).2.1 = st
    ∧ countCalib ((wf.shape0, wf.shape1), fwd)
        (fft_2d impl conf caps ncpus (fft_2d impl conf caps ncpus st wf fwd norm sh).2.1
          wf fwd norm sh).2.2 = 1 := by
  have h1 := fft_2d_fftw_error impl conf caps ncpus st wf fwd norm sh e hsel hkey hfail
  have hst : (fft_2d impl conf caps ncpus st wf fwd norm sh).2.1 = st := by rw [h1]
  refine ⟨by rw [h1], hst, ?_⟩
  rw [hst, h1]
  rw [countCalib_single]
  simp

theorem fftw_calibration_failure_not_cached_witness :
    selectBackend confF capsF X22.shape0 = Backend.fftw
    ∧ (fft_2d failImpl confF capsF 4 [] X22 true none true).1 =
        Except.error "planner failure" :=
  ⟨by decide,
    (fftw_calibration_failure_not_cached failImpl confF capsF 4 [] X22 true none true
      "planner failure" (by decide) (by decide) rfl).1⟩

/-! ## Claim C8: the calibration call's buffer dtype, mode and threads -/

/-- **C8 counterexample**: the calibration buffer's dtype is not the one the
Precision Selector gives. With `double_precision = false` the Precision
Selector yields float32, yet the calibration pass of a fresh key allocates
its throwaway buffer with numpy's default dtype float64
(`np.zeros(wavefront.shape)` passes no dtype). -/
theorem fftw_calibration_dtype_counterexample :
    (fft_2d okImpl confF capsF 4 [] X22 true none true).2.2.map (fun ev => ev.buffer.dtype) =
        [Dtype.float64]
    ∧ _float confF = Dtype.float32
    ∧ Dtype.float64 ≠ Dtype.float32 := by
  refine ⟨?_, rfl, by decide⟩
  rfl

/-- **C8 (amended)**: when a new (shape, direction) key is calibrated on the
FFTW path, the throwaway zero-filled calibration buffer is allocated with
numpy's default dtype float64 — independent of the configured precision, and
in particular different from the Precision Selector dtype whenever
`double_precision` is off — and the calibration transform runs in measure
mode (`planner_effort=FFTW_MEASURE`) with a thread count equal to the number
of available logical processors (`multiprocessing.cpu_count()`). -/
theorem fftw_calibration_buffer (impl : BackendImpls) (conf : Conf) (caps : Caps)
    (ncpus : Nat) (st : FFTWInit) (wf : NDArray ℚ) (fwd : Bool) (norm : Option ℚ) (sh : Bool)
    (hsel : selectBackend conf caps wf.shape0 = Backend.fftw)
    (hkey : (((wf.shape0, wf.shape1), fwd) : PlanKey) ∉ st) :
    ∃ ev : CalibEvent,
      (fft_2d impl conf caps ncpus st wf fwd norm sh).2.2 = [ev]
      ∧ ev.buffer = np_zeros wf.shape0 wf.shape1
      ∧ ev.buffer.dtype = Dtype.float64
      ∧ (∀ c2 : Conf, c2.double_precision = false → ev.buffer.dtype ≠ _float c2)
      ∧ ev.planner_effort = "FFTW_MEASURE"
      ∧ ev.threads = ncpus := by
  refine ⟨⟨((wf.shape0, wf.shape1), fwd), np_zeros wf.shape0 wf.shape1, "FFTW_MEASURE", ncpus⟩,
    ?_, rfl, rfl, ?_, rfl, rfl⟩
  · rw [congrArg Prod.snd (fft_2d_state_events impl conf caps ncpus st wf fwd norm sh)]
    rw [if_pos hsel]
    simp only [fftwStEv]
    rw [if_neg hkey]
    rcases impl.fftw_fft fwd (np_zeros wf.shape0 wf.shape1) "FFTW_MEASURE" ncpus with e | a <;> rfl
  · intro c2 hc2
    simp [_float, hc2, np_zeros]

theorem fftw_calibration_buffer_witness :
    selectBackend confF capsF X22.shape0 = Backend.fftw
    ∧ ∃ ev : CalibEvent,
        (fft_2d okImpl confF capsF 4 [] X22 true none true).2.2 = [ev]
        ∧ ev.buffer = np_zeros X22.shape0 X22.shape1
        ∧ ev.buffer.dtype = Dtype.float64
        ∧ (∀ c2 : Conf, c2.double_precision = false → ev.buffer.dtype ≠ _float c2)
        ∧ ev.planner_effort = "FFTW_MEASURE"
        ∧ ev.threads = 4 :=
  ⟨by decide,
    fftw_calibration_buffer okImpl confF capsF 4 [] X22 true none true (by decide) (by decide)⟩

end Poppy
